import Mathlib

/-!
Shallow embedding of the xds_dovs repository (db_access.py, log_to_db.py,
xds_main.py, dashboard_app.py) and verification of its specification claims.

Python strings are modelled as lists of characters (`Str`).  `None` values and
nullable database columns are modelled with `Option`.  The SQLite table
`verifications` is modelled as a list of rows in insertion order; the
filesystem is modelled as the list of existing file paths; the audit log is
modelled as an optional string (`none` when the file does not exist).
-/

namespace XDS

/-- Python strings are modelled as lists of characters. -/
abbrev Str := List Char

/-- Characters removed by Python's str.strip (whitespace). -/
def pyWS (c : Char) : Bool :=
  c = ' ' || c = '\t' || c = '\n' || c = '\r' || c = '\x0b' || c = '\x0c'

/-- Python str.strip: remove leading and trailing whitespace. -/
def pyStrip (l : Str) : Str :=
  ((l.dropWhile pyWS).reverse.dropWhile pyWS).reverse

/-- SQLite TRIM(X): removes only space characters from both ends. -/
def sqlTrim (l : Str) : Str :=
  ((l.dropWhile (· = ' ')).reverse.dropWhile (· = ' ')).reverse

/-- Python str.replace of every backslash by a forward slash. -/
def replBS (l : Str) : Str := l.map fun c => if c = '\\' then '/' else c

/-- Python str.lstrip of forward slashes. -/
def lstripSlash (l : Str) : Str := l.dropWhile (· = '/')

/-- os.path.basename on a forward-slash path: the part after the last slash. -/
def basenameL (l : Str) : Str := (l.reverse.takeWhile (· ≠ '/')).reverse

/-- Python str.startswith, on character lists. -/
def isPre : Str → Str → Bool
  | [], _ => true
  | _ :: _, [] => false
  | a :: as, b :: bs => a == b && isPre as bs

/-- Python substring containment (the `in` operator on strings). -/
def containsSub (needle : Str) : Str → Bool
  | [] => isPre needle []
  | c :: rest => isPre needle (c :: rest) || containsSub needle rest

def uploadsPre : Str := "uploads/".data

def slashUploadsPre : Str := "/uploads/".data

/-- normalize_path from db_access.py: ensure a stored photo path is relative
to uploads.  Falsy input (None or the empty string) yields None. -/
def normalize_path : Option Str → Option Str
  | none => none
  | some s =>
      if s = [] then none
      else
        let p := pyStrip (replBS s)
        if isPre uploadsPre p || isPre slashUploadsPre p then
          some (lstripSlash p)
        else
          some (uploadsPre ++ basenameL p)

/-- No leading character of l satisfies q. -/
def NoLead (q : Char → Bool) (l : Str) : Prop := l.dropWhile q = l

/-- Leading and trailing whitespace absent. -/
def Stripped (l : Str) : Prop := NoLead pyWS l ∧ NoLead pyWS l.reverse

/-! Splitting: Python str.split(sep) for a nonempty separator, modelled with
an explicit fuel argument (the number of occurrences is bounded by the
length of the string). -/

/-- First occurrence of sep in l: the part before it and the part after it. -/
def findSplit (sep : Str) : Str → Option (Str × Str)
  | [] => none
  | c :: rest =>
      if isPre sep (c :: rest) then some ([], (c :: rest).drop sep.length)
      else
        match findSplit sep rest with
        | none => none
        | some (pre, post) => some (c :: pre, post)

def splitGo (sep : Str) : Nat → Str → List Str
  | 0, l => [l]
  | fuel + 1, l =>
      match findSplit sep l with
      | none => [l]
      | some (pre, post) => pre :: splitGo sep fuel post

/-- Python str.split(sep) on character lists. -/
def splitOnL (sep l : Str) : List Str := splitGo sep l.length l

/-- One verification row of the sqlite verifications table.  All columns
except the rowid are nullable TEXT. -/
structure Row where
  id : Nat
  timestamp : Option Str
  client_id : Option Str
  status : Option Str
  details : Option Str
  name : Option Str
  id_number : Option Str
  email : Option Str
  id_photo : Option Str
  selfie_photo : Option Str
deriving DecidableEq, Repr

/-- The database is the list of rows in insertion order. -/
abbrev DB := List Row

/-- Next AUTOINCREMENT rowid: one more than the largest id present. -/
def nextId (db : DB) : Nat := db.foldr (fun r a => max r.id a) 0 + 1

/-- insert_verification from db_access.py: appends a row, normalizing the two
photo paths before storage.  Returns the new database (the returned rowid is
nextId db). -/
def insert_verification (db : DB)
    (timestamp client_id status details name id_number email
     id_photo selfie_photo : Option Str) : DB :=
  db ++ [{ id := nextId db, timestamp := timestamp, client_id := client_id,
           status := status, details := details, name := name,
           id_number := id_number, email := email,
           id_photo := normalize_path id_photo,
           selfie_photo := normalize_path selfie_photo }]

/-- Read-normalization applied per row by fetch_all_verifications. -/
def fetchRow (r : Row) : Row :=
  { r with id_photo := normalize_path r.id_photo,
           selfie_photo := normalize_path r.selfie_photo }

/-- fetch_all_verifications from db_access.py: every row with both photo
fields re-normalized on read.  The ORDER BY datetime(timestamp) DESC, id DESC
clause and the presentational date_str duplicate of timestamp are omitted:
no claim concerns the order of the returned records. -/
def fetch_all_verifications (db : DB) : List Row := db.map fetchRow

/-! Polling (xds_main.py).  The sequence of ConnectGetDOVResult responses is
an oracle; an exception from get_dov_result is modelled as Except.error and
is caught by the loop, which then treats the attempt as the empty string. -/

def noResultTag : Str := "<NoResult>".data

def timeoutSentinel : Str := "⛔ DOV Result polling timed out after multiple attempts.".data

/-- Result of one polling attempt after the try/except: an exception
becomes the empty string. -/
def attemptStr (resp : Nat → Except Unit Str) (i : Nat) : Str :=
  match resp i with
  | Except.ok s => s
  | Except.error _ => []

/-- A response that stops the loop: non-empty and not containing NoResult. -/
def goodResp (s : Str) : Bool := !s.isEmpty && !containsSub noResultTag s

def pollGo (resp : Nat → Except Unit Str) : Nat → Nat → Str
  | 0, _ => timeoutSentinel
  | left + 1, i =>
      let dov := attemptStr resp i
      if goodResp dov then dov else pollGo resp left (i + 1)

/-- poll_dov_result from xds_main.py: up to max_attempts attempts, returning
the first non-empty response not containing NoResult, else the timeout
sentinel.  The fixed sleep between attempts has no observable effect in this
model. -/
def poll_dov_result (resp : Nat → Except Unit Str) (max_attempts : Nat) : Str :=
  pollGo resp max_attempts 0

/-! Log parsing and reconciliation (log_to_db.py). -/

/-- Extraction of the value after a field tag: line.split(tag) index 1, then
strip.  When the line starts with the tag the split always has a second
element, so the partiality of the Python indexing never fires there. -/
def extractAfter (tag line : Str) : Option Str :=
  match splitOnL tag line with
  | _ :: v :: _ => some (pyStrip v)
  | _ => none

/-- Fields extracted from one audit-log session block. -/
structure Session where
  timestamp : Option Str
  client_id : Option Str
  status : Option Str
  details : Option Str
  name : Option Str
  id_number : Option Str
  email : Option Str
  id_photo : Option Str
  selfie_photo : Option Str
deriving DecidableEq, Repr

def emptySession : Session :=
  { timestamp := none, client_id := none, status := none, details := none,
    name := none, id_number := none, email := none, id_photo := none,
    selfie_photo := none }

/-- One step of parse_session_block: strip the line, then the elif chain of
literal startswith checks, each overwriting the corresponding field. -/
def parseLine (s : Session) (line0 : Str) : Session :=
  let line := pyStrip line0
  if isPre "Timestamp:".data line then
    { s with timestamp := extractAfter "Timestamp:".data line }
  else if isPre "ClientID:".data line then
    { s with client_id := extractAfter "ClientID:".data line }
  else if isPre "Verification Status:".data line then
    { s with status := extractAfter "Verification Status:".data line }
  else if isPre "Details:".data line then
    { s with details := extractAfter "Details:".data line }
  else if isPre "Name:".data line then
    { s with name := extractAfter "Name:".data line }
  else if isPre "ID Number:".data line then
    { s with id_number := extractAfter "ID Number:".data line }
  else if isPre "Email:".data line then
    { s with email := extractAfter "Email:".data line }
  else if isPre "ConsumerIDPhoto:".data line then
    { s with id_photo := extractAfter "ConsumerIDPhoto:".data line }
  else if isPre "ConsumerCapturedPhoto:".data line then
    { s with selfie_photo := extractAfter "ConsumerCapturedPhoto:".data line }
  else s

/-- parse_session_block from log_to_db.py. -/
def parse_session_block (block : Str) : Session :=
  (splitOnL ['\n'] block).foldl parseLine emptySession

/-- The session delimiter used by the log writer and the reconciliation. -/
def sessDelim : Str := "--- Verification Session ---".data

/-- insert_into_db from log_to_db.py: inserts a parsed session through
insert_verification. -/
def insert_into_db (db : DB) (s : Session) : DB :=
  insert_verification db s.timestamp s.client_id s.status s.details s.name
    s.id_number s.email s.id_photo s.selfie_photo

/-- The duplicate check of process_log_file: any fetched row with the same
timestamp and client_id. -/
def sessionExists (db : DB) (s : Session) : Bool :=
  (fetch_all_verifications db).any fun log =>
    decide (log.timestamp = s.timestamp) && decide (log.client_id = s.client_id)

/-- Guard used by both reconciliation passes: the block mentions both a
Timestamp and a ClientID field. -/
def hasSessionFields (block : Str) : Bool :=
  containsSub "Timestamp:".data block && containsSub "ClientID:".data block

def processBlock (db : DB) (block : Str) : DB :=
  if hasSessionFields block then
    let s := parse_session_block block
    if sessionExists db s then db else insert_into_db db s
  else db

/-- process_log_file from log_to_db.py: split the log on the session
delimiter and insert each parsed block not already present, re-querying the
database before every block. -/
def process_log_file (content : Str) (db : DB) : DB :=
  (splitOnL sessDelim content).foldl processBlock db

/-- Python or on optional strings: the left value unless it is falsy. -/
def pyOrStr (a b : Option Str) : Option Str :=
  match a with
  | none => b
  | some s => if s = [] then b else some s

/-- The UPDATE applied to one row: set both photo columns when the row has
the matched timestamp and client_id. -/
def retroUpdateRow (log : Row) (nip nsp : Option Str) (r : Row) : Row :=
  if r.timestamp = log.timestamp ∧ r.client_id = log.client_id then
    { r with id_photo := nip, selfie_photo := nsp }
  else r

/-- One iteration of the inner loop of retrofill_photos for a fetched row. -/
def retroLogStep (s : Session) (cur : DB) (log : Row) : DB :=
  if log.timestamp = s.timestamp ∧ log.client_id = s.client_id then
    let nip := pyOrStr log.id_photo s.id_photo
    let nsp := pyOrStr log.selfie_photo s.selfie_photo
    if nip ≠ log.id_photo ∨ nsp ≠ log.selfie_photo then
      cur.map (retroUpdateRow log nip nsp)
    else cur
  else cur

def retroBlock (logs : List Row) (cur : DB) (block : Str) : DB :=
  if hasSessionFields block then
    logs.foldl (retroLogStep (parse_session_block block)) cur
  else cur

/-- retrofill_photos from log_to_db.py: the fetched rows are read once
before the loop, then every session block updates the photo columns of the
rows with its timestamp and client_id. -/
def retrofill_photos (db : DB) (content : Str) : DB :=
  (splitOnL sessDelim content).foldl (retroBlock (fetch_all_verifications db)) db

/-! Deletion (db_access.py).  The filesystem is the list of existing paths;
os.remove failures are injected through an oracle removeOk, and audit-log
read/write failure through a boolean ioOk, mirroring the try/except blocks. -/

/-- The audit-block delimiter used by the pruning logic: fifty equals signs
followed by two newlines. -/
def eqDelim : Str := List.replicate 50 '=' ++ ['\n', '\n']

/-- The literal text searched for inside a block, built from the raw
(unstripped) id_number argument. -/
def idMarker (idn : Str) : Str := "ID Number: ".data ++ idn

def auditBlocks (content : Str) : List Str := splitOnL eqDelim content

/-- A block survives pruning when it is not whitespace-only and does not
contain the marker. -/
def keptBlock (idn b : Str) : Bool :=
  !(pyStrip b).isEmpty && !containsSub (idMarker idn) b

/-- A block counted as removed: non-whitespace and containing the marker. -/
def removedBlock (idn b : Str) : Bool :=
  !(pyStrip b).isEmpty && containsSub (idMarker idn) b

/-- Rebuilding of one kept block: terminating newline then the delimiter. -/
def rebuildBlock (b : Str) : Str :=
  (if b.getLast? = some '\n' then b else b ++ ['\n']) ++ eqDelim

/-- delete_audit_blocks_by_id_number from db_access.py: returns the new log
content and the number of removed blocks; a missing file or a failing
read/write returns 0 and leaves the log unchanged. -/
def delete_audit_blocks_by_id_number (idn : Str) (content : Option Str)
    (ioOk : Bool) : Option Str × Nat :=
  match content with
  | none => (none, 0)
  | some c =>
      if ioOk then
        (some (((auditBlocks c).filter (keptBlock idn)).map rebuildBlock).flatten,
         ((auditBlocks c).filter (removedBlock idn)).length)
      else (some c, 0)

/-- Database, photo files on disk, and the audit log file (none if absent). -/
structure SysState where
  db : DB
  files : List Str
  audit : Option Str
deriving DecidableEq, Repr

/-- Best-effort removal of one referenced file: only when the stored value is
truthy, the file exists, and os.remove succeeds. -/
def removeFileIf (removeOk : Str → Bool) (files : List Str) (f : Option Str) :
    List Str :=
  match f with
  | none => files
  | some p =>
      if p ≠ [] ∧ p ∈ files ∧ removeOk p = true then
        files.filter fun q => decide (q ≠ p)
      else files

/-- The per-row loop body shared by both delete operations: try to remove
the id photo then the selfie photo of a row. -/
def removeRowFiles (removeOk : Str → Bool) (fs : List Str) (r : Row) : List Str :=
  removeFileIf removeOk (removeFileIf removeOk fs r.id_photo) r.selfie_photo

/-- delete_verification from db_access.py: remove the linked files of the
row with the given rowid, then delete that row. -/
def delete_verification (st : SysState) (rec_id : Nat)
    (removeOk : Str → Bool) : SysState :=
  let row? := st.db.find? fun r => r.id == rec_id
  let files' :=
    match row? with
    | none => st.files
    | some r => removeRowFiles removeOk st.files r
  { st with db := st.db.filter fun r => decide (r.id ≠ rec_id), files := files' }

/-- Row selection of delete_by_id_number: TRIM(id_number) = input.strip()
in SQL; a NULL id_number never matches. -/
def rowMatches (idn : Str) (r : Row) : Bool :=
  match r.id_number with
  | none => false
  | some s => sqlTrim s == pyStrip idn

structure DeleteResult where
  state : SysState
  deleted_count : Nat
  removed_blocks : Nat
  ret : Bool
deriving Repr

/-- delete_by_id_number from db_access.py: delete the linked files of every
matching row, delete the matching rows, prune the audit log, and return
whether any row or block went away. -/
def delete_by_id_number (st : SysState) (idn : Str)
    (removeOk : Str → Bool) (ioOk : Bool) : DeleteResult :=
  let matched := st.db.filter (rowMatches idn)
  let files' := matched.foldl (removeRowFiles removeOk) st.files
  let db' := st.db.filter fun r => !rowMatches idn r
  let pruned := delete_audit_blocks_by_id_number idn st.audit ioOk
  { state := { db := db', files := files', audit := pruned.1 },
    deleted_count := matched.length,
    removed_blocks := pruned.2,
    ret := decide (0 < matched.length) || decide (0 < pruned.2) }

/-! Dashboard (dashboard_app.py). -/

/-- A dashboard record: the fetched row after its photo fields were replaced
by browser URLs (plain strings, never None). -/
structure DashRow where
  id : Nat
  timestamp : Option Str
  client_id : Option Str
  status : Option Str
  details : Option Str
  name : Option Str
  id_number : Option Str
  email : Option Str
  id_photo : Str
  selfie_photo : Str
deriving DecidableEq, Repr

/-- to_uploads_url from dashboard_app.py: falsy becomes the empty string,
otherwise strip, replace backslashes, and ensure a leading slash. -/
def to_uploads_url : Option Str → Str
  | none => []
  | some s =>
      if s = [] then []
      else
        let p := replBS (pyStrip s)
        if isPre ['/'] p then p else '/' :: p

def dashRow (r : Row) : DashRow :=
  { id := r.id, timestamp := r.timestamp, client_id := r.client_id,
    status := r.status, details := r.details, name := r.name,
    id_number := r.id_number, email := r.email,
    id_photo := to_uploads_url r.id_photo,
    selfie_photo := to_uploads_url r.selfie_photo }

/-- Python str.lower, for the ASCII statuses and query values used here. -/
def pyLower (l : Str) : Str := l.map Char.toLower

/-- The status list comprehension: a None status raises (get returns the
stored None since the key is always present, and None.lower() fails). -/
def status_filter (q : Str) : List DashRow → Except Unit (List DashRow)
  | [] => Except.ok []
  | v :: rest =>
      match v.status with
      | none => Except.error ()
      | some s =>
          match status_filter q rest with
          | Except.error e => Except.error e
          | Except.ok tail =>
              Except.ok (if pyLower s = pyLower q then v :: tail else tail)

/-- The dashboard index pipeline up to and including the status filter:
fetch, convert photo fields to URLs, then filter unless the status query
parameter lowercases to "all". -/
def index_status_stage (q : Str) (db : DB) : Except Unit (List DashRow) :=
  let logs := (fetch_all_verifications db).map dashRow
  if pyLower q = "all".data then Except.ok logs else status_filter q logs

/-- Photo paths in the relative uploads form (or absent). -/
def UploadsForm (o : Option Str) : Prop :=
  o = none ∨ ∃ t, o = some (uploadsPre ++ t)

/-- Number of rows carrying a given (timestamp, client_id) pair. -/
def pairCount (db : DB) (t c : Option Str) : Nat :=
  (db.filter fun r => decide (r.timestamp = t) && decide (r.client_id = c)).length

/-- Agreement on every persisted column except the two photo paths. -/
def SamePersisted (r r' : Row) : Prop :=
  r'.id = r.id ∧ r'.timestamp = r.timestamp ∧ r'.client_id = r.client_id ∧
  r'.status = r.status ∧ r'.details = r.details ∧ r'.name = r.name ∧
  r'.id_number = r.id_number ∧ r'.email = r.email

/-- No two rows share a (timestamp, client_id) pair. -/
def DistinctPairs (db : DB) : Prop :=
  db.Pairwise fun a b => ¬(a.timestamp = b.timestamp ∧ a.client_id = b.client_id)

/-- What the dashboard status filter must return for status=success: an ok
list holding exactly the rows whose stored status lowercases to success. -/
def SuccessFilterSpec (db : DB) (res : Except Unit (List DashRow)) : Prop :=
  ∃ L, res = Except.ok L ∧
    (∀ v ∈ L, (∃ s, v.status = some s ∧ pyLower s = "success".data) ∧
      ∃ r ∈ db, v.id = r.id ∧ v.status = r.status) ∧
    (∀ r ∈ db, ∀ s, r.status = some s → pyLower s = "success".data →
      ∃ v ∈ L, v.id = r.id ∧ v.status = r.status)

def scratchRow : Row :=
  { id := 1, timestamp := some "t1".data, client_id := some "c1".data,
    status := some "Success".data, details := none, name := none,
    id_number := some "123".data, email := none,
    id_photo := some "C:\\a\\b.jpg".data, selfie_photo := none }

/-- A stored row whose photo fields were never filled. -/
def bareRow : Row :=
  { id := 1, timestamp := some "t1".data, client_id := some "c1".data,
    status := some "Success".data, details := none, name := none,
    id_number := none, email := none, id_photo := none, selfie_photo := none }

/-- A stored row with a NULL status. -/
def rowNoStatus : Row :=
  { id := 2, timestamp := some "t2".data, client_id := some "c2".data,
    status := none, details := none, name := none,
    id_number := none, email := none, id_photo := none, selfie_photo := none }

/-- The row appended by the insertion used in the C2 witness. -/
def insertedW : Row :=
  { id := 1, timestamp := some "t".data, client_id := some "c".data,
    status := some "Success".data, details := none, name := none,
    id_number := none, email := none,
    id_photo := some "uploads/b.jpg".data, selfie_photo := none }

/-- An audit-log session block carrying a raw Windows photo path. -/
def rawPhotoLog : Str :=
  "Timestamp: t1\nClientID: c1\nConsumerIDPhoto: C:\\x\\y.jpg\n--- Verification Session ---\n".data

/-- An audit-log session block carrying only a captured selfie photo. -/
def selfieLog : Str :=
  "Timestamp: t1\nClientID: c1\nConsumerCapturedPhoto: s.jpg\n--- Verification Session ---\n".data

/-- An audit log made of one block naming ID Number 123. -/
def audit123 : Str := "ID Number: 123\n".data ++ eqDelim

/-- Relation between an original row and its state after retrofill: the
matching pair is untouched, and a photo field that normalizes to a non-null
value is either left as stored or replaced by exactly that normalization —
never by the session value from the log block. -/
def RetroInv (r r' : Row) : Prop :=
  r'.timestamp = r.timestamp ∧ r'.client_id = r.client_id ∧
  (normalize_path r.id_photo ≠ none →
    r'.id_photo = r.id_photo ∨ r'.id_photo = normalize_path r.id_photo) ∧
  (normalize_path r.selfie_photo ≠ none →
    r'.selfie_photo = r.selfie_photo ∨ r'.selfie_photo = normalize_path r.selfie_photo)

/-! Helper lemmas about the string primitives. -/

theorem uploadsPre_cons : uploadsPre = 'u' :: "ploads/".data := by decide

theorem dropWhile_dropWhile (q : Char → Bool) (l : Str) :
    (l.dropWhile q).dropWhile q = l.dropWhile q := by
  induction l with
  | nil => rfl
  | cons c t ih =>
      by_cases h : q c
      · simp [List.dropWhile_cons_of_pos h, ih]
      · simp [List.dropWhile_cons_of_neg h]

theorem dropWhile_head_false (q : Char → Bool) (l : Str) (c : Char) (t : Str)
    (h : l.dropWhile q = c :: t) : q c = false := by
  induction l with
  | nil => simp [List.dropWhile] at h
  | cons a l' ih =>
      by_cases ha : q a
      · rw [List.dropWhile_cons_of_pos ha] at h
        exact ih h
      · rw [List.dropWhile_cons_of_neg ha] at h
        cases h
        simpa using ha

/-- A prefix of a list unchanged by dropWhile is itself unchanged. -/
theorem dropWhile_of_append_stable (q : Char → Bool) (a b : Str)
    (h : (a ++ b).dropWhile q = a ++ b) : a.dropWhile q = a := by
  cases a with
  | nil => rfl
  | cons c a' =>
      have hc : q c = false :=
        dropWhile_head_false q (c :: a' ++ b) c (a' ++ b) h
      have hc' : ¬ (q c = true) := by simp [hc]
      rw [List.dropWhile_cons_of_neg hc']

theorem dropWhile_suffix_ex (q : Char → Bool) (l : Str) :
    ∃ t, l = t ++ l.dropWhile q := by
  induction l with
  | nil => exact ⟨[], rfl⟩
  | cons c l' ih =>
      by_cases h : q c
      · obtain ⟨t, ht⟩ := ih
        exact ⟨c :: t, by simp [List.dropWhile_cons_of_pos h]; exact ht⟩
      · exact ⟨[], by simp [List.dropWhile_cons_of_neg h]⟩

theorem mem_of_mem_dropWhile (q : Char → Bool) (l : Str) (c : Char)
    (h : c ∈ l.dropWhile q) : c ∈ l := by
  obtain ⟨t, ht⟩ := dropWhile_suffix_ex q l
  rw [ht]; exact List.mem_append_right t h

theorem mem_of_mem_takeWhile (q : Char → Bool) (l : Str) (c : Char)
    (h : c ∈ l.takeWhile q) : c ∈ l := by
  induction l with
  | nil => simp [List.takeWhile] at h
  | cons a l' ih =>
      by_cases ha : q a
      · rw [List.takeWhile_cons_of_pos ha] at h
        rcases List.mem_cons.mp h with h1 | h2
        · exact h1 ▸ List.mem_cons_self a l'
        · exact List.mem_cons_of_mem a (ih h2)
      · simp [List.takeWhile_cons_of_neg ha] at h

theorem pyStrip_stripped (l : Str) : Stripped (pyStrip l) := by
  unfold pyStrip Stripped NoLead
  constructor
  · set A := l.dropWhile pyWS with hA
    set B := A.reverse.dropWhile pyWS with hB
    obtain ⟨t, ht⟩ := dropWhile_suffix_ex pyWS A.reverse
    have hArev : A = B.reverse ++ t.reverse := by
      have := congrArg List.reverse ht
      simpa [List.reverse_append] using this
    have hstable : (B.reverse ++ t.reverse).dropWhile pyWS = B.reverse ++ t.reverse := by
      rw [← hArev]
      exact dropWhile_dropWhile pyWS l
    exact dropWhile_of_append_stable pyWS B.reverse t.reverse hstable
  · simp [dropWhile_dropWhile]

theorem pyStrip_of_stripped (l : Str) (h : Stripped l) : pyStrip l = l := by
  obtain ⟨h1, h2⟩ := h
  unfold pyStrip
  unfold NoLead at h1 h2
  rw [h1, h2, List.reverse_reverse]

theorem isPre_iff (a b : Str) : isPre a b = true ↔ ∃ t, b = a ++ t := by
  induction a generalizing b with
  | nil => simp [isPre]
  | cons c a' ih =>
      cases b with
      | nil =>
          simp only [isPre]
          constructor
          · intro h; exact absurd h (by simp)
          · rintro ⟨t, ht⟩; simp at ht
      | cons d b' =>
          simp only [isPre, Bool.and_eq_true, beq_iff_eq]
          rw [ih b']
          constructor
          · rintro ⟨rfl, t, rfl⟩; exact ⟨t, rfl⟩
          · rintro ⟨t, ht⟩
            rw [List.cons_append] at ht
            cases ht
            exact ⟨rfl, t, rfl⟩

theorem replBS_no_bs (l : Str) (c : Char) (h : c ∈ replBS l) : c ≠ '\\' := by
  unfold replBS at h
  obtain ⟨a, _, ha⟩ := List.mem_map.mp h
  intro hc
  subst hc
  by_cases hb : a = '\\' <;> simp [hb] at ha

theorem replBS_id (l : Str) (h : ∀ c ∈ l, c ≠ '\\') : replBS l = l := by
  unfold replBS
  conv_rhs => rw [← List.map_id l]
  exact List.map_congr_left fun c hc => by simp [h c hc]

theorem mem_of_mem_pyStrip (l : Str) (c : Char) (h : c ∈ pyStrip l) : c ∈ l := by
  unfold pyStrip at h
  rw [List.mem_reverse] at h
  have h2 := mem_of_mem_dropWhile pyWS _ c h
  rw [List.mem_reverse] at h2
  exact mem_of_mem_dropWhile pyWS _ c h2

/-- Structure of any photo path produced by normalize_path: it is nonempty,
backslash-free, stripped, and begins with the uploads prefix. -/
theorem normalize_out (p : Option Str) (q : Str) (h : normalize_path p = some q) :
    q ≠ [] ∧ (∀ c ∈ q, c ≠ '\\') ∧ Stripped q ∧ ∃ t, q = uploadsPre ++ t := by
  cases p with
  | none => simp [normalize_path] at h
  | some s =>
      simp only [normalize_path] at h
      by_cases hs : s = []
      · simp [hs] at h
      · rw [if_neg hs] at h
        set p0 := pyStrip (replBS s) with hp0
        have hp0nb : ∀ c ∈ p0, c ≠ '\\' := fun c hc =>
          replBS_no_bs s c (mem_of_mem_pyStrip (replBS s) c hc)
        have hp0str : Stripped p0 := pyStrip_stripped (replBS s)
        by_cases h1 : isPre uploadsPre p0 || isPre slashUploadsPre p0
        · rw [if_pos h1] at h
          rcases Bool.or_eq_true _ _ |>.mp h1 with h2 | h2
          · -- p0 already starts with uploads/
            obtain ⟨t, ht⟩ := (isPre_iff uploadsPre p0).mp h2
            have hq : q = p0 := by
              have hls : lstripSlash p0 = p0 := by
                unfold lstripSlash
                rw [ht, uploadsPre_cons, List.cons_append]
                rw [List.dropWhile_cons_of_neg (by decide)]
              cases h; rw [hls]
            subst hq
            refine ⟨?_, hp0nb, hp0str, ⟨t, ht⟩⟩
            rw [ht, uploadsPre_cons]; simp
          · -- p0 starts with /uploads/
            obtain ⟨t, ht⟩ := (isPre_iff slashUploadsPre p0).mp h2
            have hsl : slashUploadsPre = '/' :: uploadsPre := by decide
            rw [hsl, List.cons_append] at ht
            have hq : q = uploadsPre ++ t := by
              have hls : lstripSlash p0 = uploadsPre ++ t := by
                unfold lstripSlash
                rw [ht]
                rw [List.dropWhile_cons_of_pos (by decide)]
                rw [uploadsPre_cons, List.cons_append]
                rw [List.dropWhile_cons_of_neg (by decide)]
              cases h; rw [hls]
            subst hq
            refine ⟨by rw [uploadsPre_cons]; simp, ?_, ?_, ⟨t, rfl⟩⟩
            · intro c hc
              apply hp0nb
              rw [ht]
              exact List.mem_cons_of_mem _ hc
            · constructor
              · show (uploadsPre ++ t).dropWhile pyWS = uploadsPre ++ t
                rw [uploadsPre_cons, List.cons_append,
                  List.dropWhile_cons_of_neg (by decide)]
              · show (uploadsPre ++ t).reverse.dropWhile pyWS = (uploadsPre ++ t).reverse
                have hrev : p0.reverse = (uploadsPre ++ t).reverse ++ ['/'] := by
                  rw [ht]
                  simp
                have hst : p0.reverse.dropWhile pyWS = p0.reverse := hp0str.2
                rw [hrev] at hst
                exact dropWhile_of_append_stable pyWS _ _ hst
        · rw [if_neg h1] at h
          have hq : q = uploadsPre ++ basenameL p0 := by cases h; rfl
          subst hq
          refine ⟨by rw [uploadsPre_cons]; simp, ?_, ?_, ⟨basenameL p0, rfl⟩⟩
          · intro c hc
            rcases List.mem_append.mp hc with h2 | h2
            · revert h2
              have hup : ∀ c ∈ uploadsPre, c ≠ '\\' := by decide
              exact hup c
            · unfold basenameL at h2
              rw [List.mem_reverse] at h2
              exact hp0nb c (List.mem_reverse.mp (mem_of_mem_takeWhile _ p0.reverse c h2))
          · constructor
            · show (uploadsPre ++ basenameL p0).dropWhile pyWS = _
              rw [uploadsPre_cons, List.cons_append,
                List.dropWhile_cons_of_neg (by decide)]
            · show (uploadsPre ++ basenameL p0).reverse.dropWhile pyWS = _
              rw [List.reverse_append]
              unfold basenameL
              rw [List.reverse_reverse]
              cases htw : p0.reverse.takeWhile (· ≠ '/') with
              | nil => decide
              | cons c r =>
                  have hc : pyWS c = false := by
                    have hhd : ∃ l', p0.reverse = c :: l' := by
                      cases hp : p0.reverse with
                      | nil => rw [hp] at htw; simp [List.takeWhile] at htw
                      | cons d l' =>
                          rw [hp] at htw
                          by_cases hd : d = '/'
                          · rw [List.takeWhile_cons_of_neg (by simp [hd])] at htw
                            cases htw
                          · rw [List.takeWhile_cons_of_pos (by simp [hd])] at htw
                            cases htw
                            exact ⟨l', rfl⟩
                    obtain ⟨l', hl'⟩ := hhd
                    have := hp0str.2
                    unfold NoLead at this
                    rw [hl'] at this
                    exact dropWhile_head_false pyWS (c :: l') c l' this
                  rw [List.cons_append,
                    List.dropWhile_cons_of_neg (by simp [hc])]

/-- Claim C7 — For every input path (including empty and None), normalize_path
is idempotent: applying it twice equals applying it once. -/
theorem normalize_path_idem (p : Option Str) :
    normalize_path (normalize_path p) = normalize_path p := by
  cases hq : normalize_path p with
  | none => rfl
  | some q =>
      obtain ⟨hne, hnb, hstr, t, ht⟩ := normalize_out p q hq
      show normalize_path (some q) = some q
      simp only [normalize_path]
      rw [if_neg hne]
      have hrepl : replBS q = q := replBS_id q hnb
      have hstrip : pyStrip (replBS q) = q := by rw [hrepl]; exact pyStrip_of_stripped q hstr
      have hpre : isPre uploadsPre (pyStrip (replBS q)) = true := by
        rw [hstrip]; exact (isPre_iff _ _).mpr ⟨t, ht⟩
      simp only [hpre, Bool.true_or, if_pos]
      rw [hstrip]
      congr 1
      unfold lstripSlash
      rw [ht, uploadsPre_cons, List.cons_append,
        List.dropWhile_cons_of_neg (by decide)]


theorem pollGo_spec (resp : Nat → Except Unit Str) (left i : Nat) :
    ((∀ j, j < left → goodResp (attemptStr resp (i + j)) = false) →
      pollGo resp left i = timeoutSentinel) ∧
    (∀ j, j < left → goodResp (attemptStr resp (i + j)) = true →
      (∀ k, k < j → goodResp (attemptStr resp (i + k)) = false) →
      pollGo resp left i = attemptStr resp (i + j)) := by
  induction left generalizing i with
  | zero => exact ⟨fun _ => rfl, fun j hj => absurd hj (Nat.not_lt_zero j)⟩
  | succ n ih =>
      constructor
      · intro hall
        have h0 : goodResp (attemptStr resp i) = false := by
          have := hall 0 (Nat.succ_pos n)
          simpa using this
        show (if goodResp (attemptStr resp i) then _ else _) = _
        rw [if_neg (by simp [h0])]
        exact (ih (i + 1)).1 fun j hj => by
          have := hall (j + 1) (Nat.succ_lt_succ hj)
          rwa [Nat.add_comm j 1, ← Nat.add_assoc] at this
      · intro j hj hgood hmin
        cases j with
        | zero =>
            show (if goodResp (attemptStr resp i) then _ else _) = _
            rw [if_pos (by simpa using hgood), Nat.add_zero]
        | succ j' =>
            have h0 : goodResp (attemptStr resp i) = false := by
              have := hmin 0 (Nat.succ_pos j')
              simpa using this
            show (if goodResp (attemptStr resp i) then _ else _) = _
            rw [if_neg (by simp [h0])]
            have hres := (ih (i + 1)).2 j' (Nat.lt_of_succ_lt_succ hj)
              (by rw [Nat.add_comm j' 1] at hgood; rwa [← Nat.add_assoc] at hgood)
              (fun k hk => by
                have := hmin (k + 1) (Nat.succ_lt_succ hk)
                rwa [Nat.add_comm k 1, ← Nat.add_assoc] at this)
            rw [hres, Nat.add_comm j' 1, ← Nat.add_assoc]

/-- Claim C3 — poll_dov_result returns the first response in the attempt
sequence that is non-empty and free of NoResult, when one occurs within the
attempt budget; otherwise, after exhausting the budget, it returns the fixed
timeout sentinel. -/
theorem poll_dov_result_spec (resp : Nat → Except Unit Str) (max_attempts : Nat) :
    ((∀ j, j < max_attempts → goodResp (attemptStr resp j) = false) →
      poll_dov_result resp max_attempts = timeoutSentinel) ∧
    (∀ j, j < max_attempts → goodResp (attemptStr resp j) = true →
      (∀ k, k < j → goodResp (attemptStr resp k) = false) →
      poll_dov_result resp max_attempts = attemptStr resp j) := by
  have h := pollGo_spec resp max_attempts 0
  simpa [poll_dov_result] using h

/-- Witness for C3: with a concrete response sequence whose first good
response is at attempt 2 (0-based), polling returns it; and with a sequence
of bad responses, polling times out. -/
theorem poll_dov_result_spec_witness :
    poll_dov_result
        (fun i => if i = 2 then Except.ok "ok".data
          else if i = 1 then Except.error () else Except.ok "<NoResult>x".data) 30
      = "ok".data ∧
    poll_dov_result (fun _ => Except.ok []) 3 = timeoutSentinel := by
  constructor
  · exact (poll_dov_result_spec _ 30).2 2 (by decide) (by decide) (by decide)
  · exact (poll_dov_result_spec _ 3).1 (by decide)

theorem normalize_path_uploadsForm (p : Option Str) : UploadsForm (normalize_path p) := by
  cases hq : normalize_path p with
  | none => exact Or.inl rfl
  | some q =>
      obtain ⟨-, -, -, t, ht⟩ := normalize_out p q hq
      exact Or.inr ⟨t, by rw [ht]⟩

/-- Claim C10 — Every record returned by fetch_all_verifications has its
photo fields re-normalized on read: when non-null they are in the relative
uploads form, whatever the stored value was. -/
theorem fetch_all_verifications_normalized (db : DB) (r : Row)
    (h : r ∈ fetch_all_verifications db) :
    UploadsForm r.id_photo ∧ UploadsForm r.selfie_photo := by
  obtain ⟨r0, -, rfl⟩ := List.mem_map.mp h
  exact ⟨normalize_path_uploadsForm r0.id_photo,
    normalize_path_uploadsForm r0.selfie_photo⟩

/-- Witness for C10 at a concrete database containing a raw Windows path. -/
theorem fetch_all_verifications_normalized_witness :
    UploadsForm (fetchRow scratchRow).id_photo ∧
    UploadsForm (fetchRow scratchRow).selfie_photo :=
  fetch_all_verifications_normalized [scratchRow] (fetchRow scratchRow) (by decide)

/-- Counterexample to C2 as stated: the photo-path retrofill update stores
the raw session value C:\x\y.jpg, which is not in the relative uploads
form. -/
theorem retrofill_unnormalized_cex :
    (retrofill_photos [bareRow] rawPhotoLog).map Row.id_photo
        = [some "C:\\x\\y.jpg".data] ∧
    isPre uploadsPre "C:\\x\\y.jpg".data = false := by decide

/-- Claim C2 (amended) — Rows written through insert_verification (the live
flow and the reconciliation insert) store photo paths, when present, in the
relative uploads form; the retrofill update is excluded, since it stores the
raw log value. -/
theorem insert_verification_normalized (db : DB)
    (ts cid st dt nm idn em ip sp : Option Str) (r : Row)
    (h : r ∈ insert_verification db ts cid st dt nm idn em ip sp) :
    r ∈ db ∨ (UploadsForm r.id_photo ∧ UploadsForm r.selfie_photo) := by
  unfold insert_verification at h
  rcases List.mem_append.mp h with h1 | h2
  · exact Or.inl h1
  · rcases List.mem_singleton.mp h2 with rfl
    exact Or.inr ⟨normalize_path_uploadsForm _, normalize_path_uploadsForm _⟩

/-- Witness for C2 at a concrete insertion of a raw Windows path. -/
theorem insert_verification_normalized_witness :
    insertedW ∈ ([] : DB) ∨
      (UploadsForm insertedW.id_photo ∧ UploadsForm insertedW.selfie_photo) :=
  insert_verification_normalized [] (some "t".data) (some "c".data)
    (some "Success".data) none none none none (some "C:\\a\\b.jpg".data) none
    insertedW (by decide)

/-- Claim C9 — File-removal and audit-log failures never change the database
deletion or its reported count: the resulting rows and deleted_count are the
same under any failure pattern, and a failing audit read/write leaves the
log unchanged and reports zero removed blocks.  The embedding is total, so
no exception escapes delete_by_id_number. -/
theorem delete_failures_harmless (st : SysState) (idn : Str)
    (rOk rOk' : Str → Bool) (io io' : Bool) :
    (delete_by_id_number st idn rOk io).state.db
        = (delete_by_id_number st idn rOk' io').state.db ∧
    (delete_by_id_number st idn rOk io).deleted_count
        = (delete_by_id_number st idn rOk' io').deleted_count ∧
    delete_audit_blocks_by_id_number idn st.audit false = (st.audit, 0) := by
  refine ⟨rfl, rfl, ?_⟩
  cases st.audit <;> rfl

/-- Counterexample to C8 as stated: a stored record with a NULL status makes
the status filter raise (None.lower()) instead of returning rows. -/
theorem status_filter_null_cex :
    index_status_stage "success".data [rowNoStatus] = Except.error () := rfl

theorem status_filter_ok (q : Str) (l : List DashRow)
    (h : ∀ v ∈ l, v.status ≠ none) :
    ∃ L, status_filter q l = Except.ok L ∧
      ∀ v, v ∈ L ↔ v ∈ l ∧ ∃ s, v.status = some s ∧ pyLower s = pyLower q := by
  induction l with
  | nil => exact ⟨[], rfl, by simp⟩
  | cons v rest ih =>
      obtain ⟨L', hL', hiff⟩ := ih fun w hw => h w (List.mem_cons_of_mem v hw)
      cases hv : v.status with
      | none => exact absurd hv (h v (List.mem_cons_self v rest))
      | some s =>
          by_cases hq : pyLower s = pyLower q
          · refine ⟨v :: L', ?_, ?_⟩
            · simp only [status_filter, hv, hL']
              rw [if_pos hq]
            · intro w
              constructor
              · intro hw
                rcases List.mem_cons.mp hw with rfl | hw'
                · exact ⟨List.mem_cons_self _ _, s, hv, hq⟩
                · obtain ⟨hm, hs⟩ := (hiff w).mp hw'
                  exact ⟨List.mem_cons_of_mem _ hm, hs⟩
              · rintro ⟨hm, hs⟩
                rcases List.mem_cons.mp hm with rfl | hm'
                · exact List.mem_cons_self _ _
                · exact List.mem_cons_of_mem _ ((hiff w).mpr ⟨hm', hs⟩)
          · refine ⟨L', ?_, ?_⟩
            · simp only [status_filter, hv, hL']
              rw [if_neg hq]
            · intro w
              rw [hiff w]
              constructor
              · rintro ⟨hm, hs⟩
                exact ⟨List.mem_cons_of_mem _ hm, hs⟩
              · rintro ⟨hm, hs⟩
                rcases List.mem_cons.mp hm with rfl | hm'
                · obtain ⟨s', hvs', hlow⟩ := hs
                  rw [hv] at hvs'
                  cases hvs'
                  exact absurd hlow hq
                · exact ⟨hm', hs⟩

/-- Claim C8 (amended) — Provided every stored status is non-null, filtering
with status=success returns exactly the rows whose stored status lowercases
to success, and no others; a NULL status makes the filter raise instead. -/
theorem index_status_stage_success (db : DB) (h : ∀ r ∈ db, r.status ≠ none) :
    SuccessFilterSpec db (index_status_stage "success".data db) := by
  have hstat : ∀ v ∈ (fetch_all_verifications db).map dashRow, v.status ≠ none := by
    intro v hv
    obtain ⟨r1, hr1, rfl⟩ := List.mem_map.mp hv
    obtain ⟨r0, hr0, rfl⟩ := List.mem_map.mp hr1
    simpa [dashRow, fetchRow] using h r0 hr0
  obtain ⟨L, hL, hiff⟩ := status_filter_ok "success".data
    ((fetch_all_verifications db).map dashRow) hstat
  refine ⟨L, ?_, ?_, ?_⟩
  · show index_status_stage "success".data db = Except.ok L
    simp only [index_status_stage]
    rw [if_neg (by decide)]
    exact hL
  · intro v hv
    obtain ⟨hm, s, hvs, hlow⟩ := (hiff v).mp hv
    refine ⟨⟨s, hvs, by simpa using hlow⟩, ?_⟩
    obtain ⟨r1, hr1, rfl⟩ := List.mem_map.mp hm
    obtain ⟨r0, hr0, rfl⟩ := List.mem_map.mp hr1
    exact ⟨r0, hr0, rfl, rfl⟩
  · intro r hr s hs hlow
    refine ⟨dashRow (fetchRow r), ?_, rfl, rfl⟩
    apply (hiff _).mpr
    refine ⟨List.mem_map_of_mem dashRow (List.mem_map_of_mem fetchRow hr), s, ?_, ?_⟩
    · simpa [dashRow, fetchRow] using hs
    · simpa using hlow

/-- Witness for C8 at a concrete database with one Success row. -/
theorem index_status_stage_success_witness :
    SuccessFilterSpec [scratchRow] (index_status_stage "success".data [scratchRow]) :=
  index_status_stage_success [scratchRow] (by decide)

theorem pairCount_append (db1 db2 : DB) (t c : Option Str) :
    pairCount (db1 ++ db2) t c = pairCount db1 t c + pairCount db2 t c := by
  unfold pairCount
  rw [List.filter_append, List.length_append]

theorem pairCount_single (r : Row) (t c : Option Str) :
    pairCount [r] t c = if r.timestamp = t ∧ r.client_id = c then 1 else 0 := by
  unfold pairCount
  by_cases h1 : r.timestamp = t <;> by_cases h2 : r.client_id = c <;>
    simp [List.filter, h1, h2]

theorem pairCount_insert (db : DB) (s : Session) (t c : Option Str) :
    pairCount (insert_into_db db s) t c =
      pairCount db t c + (if s.timestamp = t ∧ s.client_id = c then 1 else 0) := by
  unfold insert_into_db insert_verification
  rw [pairCount_append]
  congr 1
  exact pairCount_single _ t c

theorem sessionExists_eq_false_iff (db : DB) (s : Session) :
    sessionExists db s = false ↔ pairCount db s.timestamp s.client_id = 0 := by
  unfold sessionExists pairCount fetch_all_verifications
  rw [List.any_map, List.length_eq_zero, List.filter_eq_nil_iff]
  rw [List.any_eq_false]
  constructor
  · intro h r hr
    have := h r hr
    simpa [fetchRow] using this
  · intro h r hr
    have := h r hr
    simpa [fetchRow] using this

theorem processBlocks_pairCount (bs : List Str) (db : DB) (t c : Option Str) :
    pairCount (bs.foldl processBlock db) t c ≤ max (pairCount db t c) 1 := by
  induction bs generalizing db with
  | nil => exact Nat.le_max_left _ _
  | cons b rest ih =>
      show pairCount (rest.foldl processBlock (processBlock db b)) t c ≤ _
      unfold processBlock
      by_cases hg : hasSessionFields b = true
      · rw [if_pos hg]
        by_cases he : sessionExists db (parse_session_block b) = true
        · rw [if_pos he]
          exact ih db
        · rw [if_neg he]
          have he' : sessionExists db (parse_session_block b) = false := by
            revert he
            cases sessionExists db (parse_session_block b) <;> simp
          have h0 := (sessionExists_eq_false_iff db _).mp he'
          have hc := pairCount_insert db (parse_session_block b) t c
          refine le_trans (ih _) ?_
          rw [hc]
          by_cases hp : (parse_session_block b).timestamp = t ∧
              (parse_session_block b).client_id = c
          · rw [if_pos hp]
            have hz : pairCount db t c = 0 := by
              rw [← hp.1, ← hp.2]
              exact h0
            rw [hz]
            simp
          · rw [if_neg hp]
            simp
      · rw [if_neg hg]
        exact ih db

/-- Claim C4 — process_log_file never inserts a row whose (timestamp,
client_id) pair is already present, including pairs inserted earlier in the
same run: every pair occurs in the result at most once unless it already
occurred more often in the initial datastore. -/
theorem process_log_file_no_duplicate (content : Str) (db : DB) (t c : Option Str) :
    pairCount (process_log_file content db) t c ≤ max (pairCount db t c) 1 :=
  processBlocks_pairCount (splitOnL sessDelim content) db t c

theorem retroUpdateRow_same (log : Row) (nip nsp : Option Str) (r r' : Row)
    (h : SamePersisted r r') : SamePersisted r (retroUpdateRow log nip nsp r') := by
  unfold retroUpdateRow
  split
  · exact h
  · exact h

theorem forall2_map_same (f : Row → Row)
    (hf : ∀ r r', SamePersisted r r' → SamePersisted r (f r'))
    (db cur : DB) (h : List.Forall₂ SamePersisted db cur) :
    List.Forall₂ SamePersisted db (cur.map f) := by
  induction h with
  | nil => exact List.Forall₂.nil
  | cons hrel _ ih => exact List.Forall₂.cons (hf _ _ hrel) ih

theorem retroLogStep_frame (s : Session) (log : Row) (db cur : DB)
    (h : List.Forall₂ SamePersisted db cur) :
    List.Forall₂ SamePersisted db (retroLogStep s cur log) := by
  unfold retroLogStep
  split
  · dsimp only
    split
    · exact forall2_map_same _ (retroUpdateRow_same log _ _) db cur h
    · exact h
  · exact h

theorem retroFold_frame (s : Session) (logs : List Row) (db : DB) :
    ∀ cur, List.Forall₂ SamePersisted db cur →
      List.Forall₂ SamePersisted db (logs.foldl (retroLogStep s) cur) := by
  induction logs with
  | nil => exact fun cur h => h
  | cons l rest ih =>
      intro cur h
      exact ih _ (retroLogStep_frame s l db cur h)

theorem retroBlocks_frame (logs : List Row) (bs : List Str) (db : DB) :
    ∀ cur, List.Forall₂ SamePersisted db cur →
      List.Forall₂ SamePersisted db (bs.foldl (retroBlock logs) cur) := by
  induction bs with
  | nil => exact fun cur h => h
  | cons b rest ih =>
      intro cur h
      apply ih
      unfold retroBlock
      split
      · exact retroFold_frame _ logs db cur h
      · exact h

theorem retrofill_photos_frame (db : DB) (content : Str) :
    List.Forall₂ SamePersisted db (retrofill_photos db content) := by
  unfold retrofill_photos
  apply retroBlocks_frame
  exact List.forall₂_same.mpr fun r _ => ⟨rfl, rfl, rfl, rfl, rfl, rfl, rfl, rfl⟩

theorem processBlock_append (db : DB) (b : Str) :
    ∃ t, processBlock db b = db ++ t := by
  unfold processBlock
  split
  · dsimp only
    split
    · exact ⟨[], by simp⟩
    · exact ⟨[_], rfl⟩
  · exact ⟨[], by simp⟩

theorem processBlocks_append (bs : List Str) (db : DB) :
    ∃ t, bs.foldl processBlock db = db ++ t := by
  induction bs generalizing db with
  | nil => exact ⟨[], by simp⟩
  | cons b rest ih =>
      obtain ⟨t1, h1⟩ := processBlock_append db b
      obtain ⟨t2, h2⟩ := ih (processBlock db b)
      exact ⟨t1 ++ t2, by rw [List.foldl_cons, h2, h1, List.append_assoc]⟩

/-- Claim C6 — retrofill_photos changes only the two photo columns: every
row keeps its id, timestamp, client_id, status, details, name, id_number
and email; and no other operation mutates an existing row — the two insert
paths only append, and the two delete operations only remove rows, leaving
the surviving rows exactly as stored. -/
theorem mutation_frame :
    (∀ (db : DB) (content : Str),
      List.Forall₂ SamePersisted db (retrofill_photos db content)) ∧
    (∀ (db : DB) (ts cid st dt nm idn em ip sp : Option Str),
      ∃ t, insert_verification db ts cid st dt nm idn em ip sp = db ++ t) ∧
    (∀ (content : Str) (db : DB), ∃ t, process_log_file content db = db ++ t) ∧
    (∀ (st : SysState) (rec_id : Nat) (rOk : Str → Bool),
      ∀ r ∈ (delete_verification st rec_id rOk).db, r ∈ st.db) ∧
    (∀ (st : SysState) (idn : Str) (rOk : Str → Bool) (io : Bool),
      ∀ r ∈ (delete_by_id_number st idn rOk io).state.db, r ∈ st.db) := by
  refine ⟨retrofill_photos_frame, ?_, ?_, ?_, ?_⟩
  · intro db ts cid st dt nm idn em ip sp
    exact ⟨[_], rfl⟩
  · intro content db
    exact processBlocks_append (splitOnL sessDelim content) db
  · intro st rec_id rOk r hr
    exact (List.mem_filter.mp hr).1
  · intro st idn rOk io r hr
    exact (List.mem_filter.mp hr).1

/-- Witness for C6: a row surviving a non-matching bulk delete was already
stored. -/
theorem mutation_frame_witness : scratchRow ∈ [scratchRow] :=
  mutation_frame.2.2.2.2 { db := [scratchRow], files := [], audit := none }
    "999".data (fun _ => true) true scratchRow (by decide)

theorem pyOrStr_normalize (p b : Option Str) (h : normalize_path p ≠ none) :
    pyOrStr (normalize_path p) b = normalize_path p := by
  cases hq : normalize_path p with
  | none => exact absurd hq h
  | some q =>
      obtain ⟨hne, -, -, -⟩ := normalize_out p q hq
      simp [pyOrStr, hne]

theorem distinct_unique (db : DB) (hdp : DistinctPairs db) (r0 : Row) (h0 : r0 ∈ db) :
    ∀ r ∈ db, r.timestamp = r0.timestamp ∧ r.client_id = r0.client_id → r = r0 := by
  intro r hr hpair
  by_contra hne
  have hsym : Symmetric fun a b : Row =>
      ¬(a.timestamp = b.timestamp ∧ a.client_id = b.client_id) := by
    intro a b hab hba
    exact hab ⟨hba.1.symm, hba.2.symm⟩
  exact List.Pairwise.forall hsym hdp hr h0 hne hpair

theorem retroUpdateRow_inv (s : Session) (r0 r r' : Row)
    (hinv : RetroInv r r')
    (heq : r.timestamp = r0.timestamp ∧ r.client_id = r0.client_id → r = r0) :
    RetroInv r (retroUpdateRow (fetchRow r0)
      (pyOrStr (fetchRow r0).id_photo s.id_photo)
      (pyOrStr (fetchRow r0).selfie_photo s.selfie_photo) r') := by
  obtain ⟨hts, hcid, hip, hsp⟩ := hinv
  unfold retroUpdateRow
  split
  · rename_i hc
    have hr0 : r = r0 := heq ⟨by rw [← hts]; exact hc.1, by rw [← hcid]; exact hc.2⟩
    subst hr0
    refine ⟨hts, hcid, fun hnp => Or.inr ?_, fun hnp => Or.inr ?_⟩
    · exact pyOrStr_normalize r.id_photo s.id_photo hnp
    · exact pyOrStr_normalize r.selfie_photo s.selfie_photo hnp
  · exact ⟨hts, hcid, hip, hsp⟩

theorem forall2_map_inv (s : Session) (r0 : Row) (db cur : DB)
    (h : List.Forall₂ RetroInv db cur) :
    (∀ r ∈ db, r.timestamp = r0.timestamp ∧ r.client_id = r0.client_id → r = r0) →
    List.Forall₂ RetroInv db (cur.map (retroUpdateRow (fetchRow r0)
      (pyOrStr (fetchRow r0).id_photo s.id_photo)
      (pyOrStr (fetchRow r0).selfie_photo s.selfie_photo))) := by
  induction h with
  | nil => exact fun _ => List.Forall₂.nil
  | cons hrel htail ih =>
      intro hu
      exact List.Forall₂.cons
        (retroUpdateRow_inv s r0 _ _ hrel (hu _ (List.mem_cons_self _ _)))
        (ih fun r hr hp => hu r (List.mem_cons_of_mem _ hr) hp)

theorem retroLogStep_inv (s : Session) (r0 : Row) (db cur : DB)
    (hu : ∀ r ∈ db, r.timestamp = r0.timestamp ∧ r.client_id = r0.client_id → r = r0)
    (h : List.Forall₂ RetroInv db cur) :
    List.Forall₂ RetroInv db (retroLogStep s cur (fetchRow r0)) := by
  unfold retroLogStep
  split
  · dsimp only
    split
    · exact forall2_map_inv s r0 db cur h hu
    · exact h
  · exact h

theorem retroFold_inv (s : Session) (db0 : DB) (hdp : DistinctPairs db0) :
    ∀ logs : List Row, (∀ l ∈ logs, ∃ r0 ∈ db0, l = fetchRow r0) →
      ∀ cur, List.Forall₂ RetroInv db0 cur →
        List.Forall₂ RetroInv db0 (logs.foldl (retroLogStep s) cur) := by
  intro logs
  induction logs with
  | nil => exact fun _ cur h => h
  | cons l rest ih =>
      intro hlogs cur h
      obtain ⟨r0, hr0, hl⟩ := hlogs l (List.mem_cons_self l rest)
      subst hl
      exact ih (fun l2 hl2 => hlogs l2 (List.mem_cons_of_mem _ hl2)) _
        (retroLogStep_inv s r0 db0 cur (distinct_unique db0 hdp r0 hr0) h)

theorem retroBlocks_inv (db0 : DB) (hdp : DistinctPairs db0) (bs : List Str) :
    ∀ cur, List.Forall₂ RetroInv db0 cur →
      List.Forall₂ RetroInv db0
        (bs.foldl (retroBlock (fetch_all_verifications db0)) cur) := by
  induction bs with
  | nil => exact fun cur h => h
  | cons b rest ih =>
      intro cur h
      apply ih
      unfold retroBlock
      split
      · refine retroFold_inv _ db0 hdp (fetch_all_verifications db0) ?_ cur h
        intro l hl
        obtain ⟨r0, hr0, hfe⟩ := List.mem_map.mp hl
        exact ⟨r0, hr0, hfe.symm⟩
      · exact h

/-- Counterexample to C5 as stated: retrofill overwrites the existing
non-null stored path C:\a\b.jpg, replacing it by uploads/b.jpg while filling
the missing selfie from the log block. -/
theorem retrofill_photos_overwrite_cex :
    scratchRow.id_photo = some "C:\\a\\b.jpg".data ∧
    (retrofill_photos [scratchRow] selfieLog).map Row.id_photo
      = [some "uploads/b.jpg".data] := by decide

/-- Claim C5 (amended) — For a datastore whose rows carry distinct
(timestamp, client_id) pairs, the log block value is written only where the
stored photo field normalizes to null: a photo field with a non-null
normalization is either left as stored or rewritten to exactly its own
normalization, never to the log value.  (As stated the claim fails: a
non-null stored path can be rewritten to its normalized form.) -/
theorem retrofill_photos_no_overwrite (db : DB) (content : Str)
    (hdp : DistinctPairs db) :
    List.Forall₂ RetroInv db (retrofill_photos db content) := by
  unfold retrofill_photos
  exact retroBlocks_inv db hdp _ db
    (List.forall₂_same.mpr fun r _ =>
      ⟨rfl, rfl, fun _ => Or.inl rfl, fun _ => Or.inl rfl⟩)

/-- Witness for C5 at the concrete one-row datastore and selfie block. -/
theorem retrofill_photos_no_overwrite_witness :
    List.Forall₂ RetroInv [scratchRow] (retrofill_photos [scratchRow] selfieLog) :=
  retrofill_photos_no_overwrite [scratchRow] selfieLog (by simp [DistinctPairs])

theorem delete_by_id_number_db_eq (st : SysState) (idn : Str)
    (rOk : Str → Bool) (io : Bool) :
    (delete_by_id_number st idn rOk io).state.db
      = st.db.filter (fun r => !rowMatches idn r) := rfl

theorem delete_by_id_number_files_eq (st : SysState) (idn : Str)
    (rOk : Str → Bool) (io : Bool) :
    (delete_by_id_number st idn rOk io).state.files
      = (st.db.filter (rowMatches idn)).foldl (removeRowFiles rOk) st.files := rfl

theorem delete_by_id_number_audit_eq (st : SysState) (idn : Str)
    (rOk : Str → Bool) (io : Bool) :
    (delete_by_id_number st idn rOk io).state.audit
      = (delete_audit_blocks_by_id_number idn st.audit io).1 := rfl

theorem delete_by_id_number_count_eq (st : SysState) (idn : Str)
    (rOk : Str → Bool) (io : Bool) :
    (delete_by_id_number st idn rOk io).deleted_count
      = (st.db.filter (rowMatches idn)).length := rfl

theorem delete_by_id_number_removed_eq (st : SysState) (idn : Str)
    (rOk : Str → Bool) (io : Bool) :
    (delete_by_id_number st idn rOk io).removed_blocks
      = (delete_audit_blocks_by_id_number idn st.audit io).2 := rfl

theorem delete_by_id_number_ret_eq (st : SysState) (idn : Str)
    (rOk : Str → Bool) (io : Bool) :
    (delete_by_id_number st idn rOk io).ret
      = (decide (0 < (st.db.filter (rowMatches idn)).length) ||
         decide (0 < (delete_audit_blocks_by_id_number idn st.audit io).2)) := rfl

theorem removeFileIf_subset (rOk : Str → Bool) (fs : List Str) (f : Option Str) :
    ∀ g ∈ removeFileIf rOk fs f, g ∈ fs := by
  intro g hg
  cases f with
  | none => exact hg
  | some p =>
      simp only [removeFileIf] at hg
      split at hg
      · exact (List.mem_filter.mp hg).1
      · exact hg

theorem removeRowFiles_subset (rOk : Str → Bool) (fs : List Str) (r : Row) :
    ∀ g ∈ removeRowFiles rOk fs r, g ∈ fs := fun g hg =>
  removeFileIf_subset rOk fs r.id_photo g
    (removeFileIf_subset rOk _ r.selfie_photo g hg)

theorem foldl_removeRowFiles_subset (rOk : Str → Bool) (rows : List Row) :
    ∀ fs, ∀ g ∈ rows.foldl (removeRowFiles rOk) fs, g ∈ fs := by
  induction rows with
  | nil => exact fun fs g hg => hg
  | cons r rest ih =>
      intro fs g hg
      exact removeRowFiles_subset rOk fs r g (ih _ g hg)

theorem removeFileIf_gone (fs : List Str) (p : Str) (hne : p ≠ []) :
    p ∉ removeFileIf (fun _ => true) fs (some p) := by
  intro hmem
  simp only [removeFileIf] at hmem
  split at hmem
  · have hpp := (List.mem_filter.mp hmem).2
    simp at hpp
  · rename_i hc
    exact hc ⟨hne, hmem, trivial⟩

theorem removeRowFiles_gone (fs : List Str) (r : Row) (f : Str) (hne : f ≠ [])
    (href : r.id_photo = some f ∨ r.selfie_photo = some f) :
    f ∉ removeRowFiles (fun _ => true) fs r := by
  unfold removeRowFiles
  rcases href with h | h
  · rw [h]
    intro hmem
    have h2 := removeFileIf_subset _ _ r.selfie_photo f hmem
    exact removeFileIf_gone fs f hne h2
  · rw [h]
    intro hmem
    exact removeFileIf_gone _ f hne hmem

theorem foldl_removeRowFiles_gone (r : Row) (f : Str) (hne : f ≠ [])
    (href : r.id_photo = some f ∨ r.selfie_photo = some f) :
    ∀ rows : List Row, r ∈ rows →
      ∀ fs, f ∉ rows.foldl (removeRowFiles (fun _ => true)) fs := by
  intro rows
  induction rows with
  | nil => intro hr; cases hr
  | cons r1 rest ih =>
      intro hr fs
      rcases List.mem_cons.mp hr with rfl | hr'
      · intro hmem
        have h2 := foldl_removeRowFiles_subset _ rest _ f hmem
        exact removeRowFiles_gone fs r f hne href h2
      · exact ih hr' _

theorem marker_block_not_kept (idn content b : Str)
    (hm : containsSub (idMarker idn) b = true) :
    b ∉ (auditBlocks content).filter (keptBlock idn) := by
  intro hmem
  have h2 := (List.mem_filter.mp hmem).2
  unfold keptBlock at h2
  rw [hm] at h2
  simp at h2

/-- Counterexample to C1 as stated: deleting with the input "123 " (trailing
space) removes the row whose trimmed id_number is 123, yet the audit block
mentioning ID Number: 123 survives untouched, because the pruning searches
for the literal marker built from the raw input. -/
theorem delete_by_id_number_cex :
    (delete_by_id_number { db := [scratchRow], files := [], audit := some audit123 }
        "123 ".data (fun _ => true) true).state.db = [] ∧
    (delete_by_id_number { db := [scratchRow], files := [], audit := some audit123 }
        "123 ".data (fun _ => true) true).state.audit = some audit123 ∧
    containsSub (idMarker "123".data) audit123 = true := by decide

/-- Claim C1 (amended) — delete_by_id_number removes exactly the rows whose
space-trimmed stored id_number equals the whitespace-stripped input, deletes
the existing photo files those rows reference, removes (when the log exists
and IO succeeds) every audit block — splitting on the fifty-equals
delimiter — containing the literal text "ID Number: " followed by the raw
unstripped input, and returns false exactly when no row and no block was
removed.  (As stated the claim fails: blocks are matched against the raw
input and the literal marker, not against every mention of the trimmed
id_number.) -/
theorem delete_by_id_number_amended (st : SysState) (idn : Str) :
    (∀ r ∈ st.db, rowMatches idn r = true →
        r ∉ (delete_by_id_number st idn (fun _ => true) true).state.db) ∧
    (∀ r ∈ (delete_by_id_number st idn (fun _ => true) true).state.db,
        r ∈ st.db ∧ rowMatches idn r = false) ∧
    (∀ r ∈ st.db, rowMatches idn r = true → ∀ f : Str, f ≠ [] →
        (r.id_photo = some f ∨ r.selfie_photo = some f) →
        f ∉ (delete_by_id_number st idn (fun _ => true) true).state.files) ∧
    (∀ f ∈ (delete_by_id_number st idn (fun _ => true) true).state.files,
        f ∈ st.files) ∧
    (∀ content, st.audit = some content →
      (delete_by_id_number st idn (fun _ => true) true).state.audit
        = some ((((auditBlocks content).filter (keptBlock idn)).map rebuildBlock).flatten) ∧
      ∀ b ∈ auditBlocks content, containsSub (idMarker idn) b = true →
        b ∉ (auditBlocks content).filter (keptBlock idn)) ∧
    ((delete_by_id_number st idn (fun _ => true) true).ret = false ↔
      (delete_by_id_number st idn (fun _ => true) true).deleted_count = 0 ∧
      (delete_by_id_number st idn (fun _ => true) true).removed_blocks = 0) := by
  refine ⟨?_, ?_, ?_, ?_, ?_, ?_⟩
  · intro r hr hm hmem
    rw [delete_by_id_number_db_eq] at hmem
    have h2 := (List.mem_filter.mp hmem).2
    rw [hm] at h2
    simp at h2
  · intro r hr
    rw [delete_by_id_number_db_eq] at hr
    obtain ⟨h1, h2⟩ := List.mem_filter.mp hr
    refine ⟨h1, ?_⟩
    revert h2
    cases rowMatches idn r <;> simp
  · intro r hr hm f hne href
    rw [delete_by_id_number_files_eq]
    exact foldl_removeRowFiles_gone r f hne href _
      (List.mem_filter.mpr ⟨hr, hm⟩) st.files
  · intro f hf
    rw [delete_by_id_number_files_eq] at hf
    exact foldl_removeRowFiles_subset _ _ st.files f hf
  · intro content hcontent
    constructor
    · rw [delete_by_id_number_audit_eq, hcontent]
      rfl
    · intro b hb hm
      exact marker_block_not_kept idn content b hm
  · rw [delete_by_id_number_ret_eq, delete_by_id_number_count_eq,
      delete_by_id_number_removed_eq]
    simp [Nat.pos_iff_ne_zero]

/-- Witness for C1: the matching row is gone after the concrete deletion. -/
theorem delete_by_id_number_amended_witness :
    scratchRow ∉ (delete_by_id_number
        { db := [scratchRow], files := [], audit := none }
        "123".data (fun _ => true) true).state.db :=
  (delete_by_id_number_amended { db := [scratchRow], files := [], audit := none }
      "123".data).1 scratchRow (by decide) (by decide)

end XDS
